import Mathlib

/-
Verification of the connect4 rules engine: a shallow embedding of the
core data model (positions, boards, games), the validators, the win
detector, the projections and the command processor, together with
theorems about them.

Rust indexing into a fixed array panics when the index is out of range;
here a board read is modelled by getElem? (returning none on an
out-of-range index) and every function that can reach such a read
returns an Option whose none value models the panic.  Timestamps
(DateTime) are modelled by an abstract Nat passed in by the caller.
-/

set_option maxHeartbeats 1600000

namespace ConnectFour

/-- The two player marks. -/
inductive Token where
  | Red
  | Yellow
deriving DecidableEq

/-- A board slot: empty or occupied by a token. -/
inductive Slot where
  | Empty
  | Occupied (t : Token)
deriving DecidableEq

/-- A player: a name paired with the token it plays. -/
structure Player where
  name : String
  token : Token
deriving DecidableEq

/-- A 2-D board coordinate. -/
structure Position where
  x : Nat
  y : Nat
deriving DecidableEq

def HORIZONTAL_SLOT_COUNT : Nat := 7

def VERTICAL_SLOT_COUNT : Nat := 6

def SLOT_COUNT : Nat := HORIZONTAL_SLOT_COUNT * VERTICAL_SLOT_COUNT

/-- Flat index of a position: x + 7 * y. -/
def Position.translate (p : Position) : Nat :=
  p.x + HORIZONTAL_SLOT_COUNT * p.y

def Position.from_coord (x y : Nat) : Position := ⟨x, y⟩

/-- The loop inside from_index: repeatedly subtract the row width. -/
def Position.from_index_go (x y : Nat) : Position :=
  if x < HORIZONTAL_SLOT_COUNT then ⟨x, y⟩
  else Position.from_index_go (x - HORIZONTAL_SLOT_COUNT) (y + 1)
termination_by x
decreasing_by
  simp only [HORIZONTAL_SLOT_COUNT] at *
  omega

/-- Inverse translation from a flat index to a position. -/
def Position.from_index (idx : Nat) : Position :=
  Position.from_index_go idx 0

def Position.add_x (p : Position) (i : Nat) : Position := { p with x := p.x + i }

/-- Unchecked subtraction on the column, as in the source (usize). -/
def Position.sub_x (p : Position) (i : Nat) : Position := { p with x := p.x - i }

def Position.add_y (p : Position) (i : Nat) : Position := { p with y := p.y + i }

/-- Faithful to the source, whose sub_y in fact adds (it is unused). -/
def Position.sub_y (p : Position) (i : Nat) : Position := { p with y := p.y + i }

/-- A board is a sequence of 42 slots (the length is carried as a
hypothesis where needed, mirroring the fixed-size Rust array). -/
abbrev Board := List Slot

def empty_board : Board := List.replicate SLOT_COUNT Slot.Empty

/-- The array built by board_positions: start from 42 copies of the
origin and write each position at its translated index. -/
def board_positions : List Position :=
  (List.range HORIZONTAL_SLOT_COUNT).foldl
    (fun acc x =>
      (List.range VERTICAL_SLOT_COUNT).foldl
        (fun acc2 y => acc2.set (Position.mk x y).translate (Position.mk x y)) acc)
    (List.replicate SLOT_COUNT (Position.mk 0 0))

/-- The six positions of one column, ascending row order. -/
def column_positions (x : Nat) : List Position :=
  (List.range VERTICAL_SLOT_COUNT).map (fun y => Position.mk x y)

/-- Events and commands (timestamps abstracted to Nat). -/
structure GameCreated where
  id : Nat
  player1 : Player
  player2 : Player
  created : Nat
deriving DecidableEq

structure TokenPlaced where
  game : Nat
  token : Token
  column : Nat
  created : Nat
deriving DecidableEq

inductive GameEvents where
  | gameCreated (e : GameCreated)
  | tokenPlaced (e : TokenPlaced)
deriving DecidableEq

structure CreateGame where
  player1 : Player
  player2 : Player
deriving DecidableEq

structure PlaceToken where
  game : Nat
  player : Player
  column : Nat
deriving DecidableEq

inductive GameCommands where
  | createGame (c : CreateGame)
  | placeToken (c : PlaceToken)
deriving DecidableEq

structure Game where
  id : Nat
  player1 : Player
  player2 : Player
  board : Board
deriving DecidableEq

/-- The games collection: an association list with unique keys models
the HashMap from game id to game. -/
abbrev Games := List (Nat × Game)

def games_values (games : Games) : List Game := games.map Prod.snd

def games_get (games : Games) (id : Nat) : Option Game :=
  (games.find? (fun kv => kv.fst == id)).map Prod.snd

def games_len (games : Games) : Nat := games.length

/-- HashMap insert: replace the value at an existing key, else append. -/
def games_insert : Games → Nat → Game → Games
  | [], id, g => [(id, g)]
  | kv :: rest, id, g =>
    if kv.fst == id then (id, g) :: rest else kv :: games_insert rest id g

/-- Write through get_mut: replace the value at an existing key. -/
def games_update : Games → Nat → Game → Games
  | [], _, _ => []
  | kv :: rest, id, g =>
    if kv.fst == id then (id, g) :: rest else kv :: games_update rest id g

/-- The loop inside is_valid_move over the positions of one column:
some true when an empty slot is found first, none when a board read
goes out of range. -/
def find_empty_slot (board : Board) : List Position → Option Bool
  | [] => some false
  | pos :: rest =>
    match board[pos.translate]? with
    | none => none
    | some Slot.Empty => some true
    | some (Slot.Occupied _) => find_empty_slot board rest

def is_valid_move (board : Board) (action : PlaceToken) : Option Bool :=
  find_empty_slot board (column_positions action.column)

/-- The loop inside project_board: occupy the first empty slot of the
column and stop; a full column leaves the board unchanged. -/
def place_token_scan (board : Board) (t : Token) : List Position → Option Board
  | [] => some board
  | pos :: rest =>
    match board[pos.translate]? with
    | none => none
    | some Slot.Empty => some (board.set pos.translate (Slot.Occupied t))
    | some (Slot.Occupied _) => place_token_scan board t rest

def project_board (board : Board) (event : TokenPlaced) : Option Board :=
  place_token_scan board event.token (column_positions event.column)

/-- One slot comparison of the win detector: board[p.translate()] == slot. -/
def slot_matches (board : Board) (p : Position) (slot : Slot) : Option Bool :=
  (board[p.translate]?).map (fun s => s == slot)

/-- Short-circuit conjunction in the panic monad: when the left operand
is false the right operand is never evaluated, so a panic hiding there
is not reached. -/
def and_then_bool (a b : Option Bool) : Option Bool :=
  match a with
  | none => none
  | some false => some false
  | some true => b

/-- One directional line test: guard && cmp1 && cmp2 && cmp3 with
left-to-right short-circuit evaluation. -/
def line_check (board : Board) (slot : Slot) (g : Bool) (p1 p2 p3 : Position) : Option Bool :=
  and_then_bool (some g)
    (and_then_bool (slot_matches board p1 slot)
      (and_then_bool (slot_matches board p2 slot) (slot_matches board p3 slot)))

/-- The scan loop of check_game_over.  For each occupied anchor the four
directional tests are all evaluated (they are eager let bindings in the
source), then the result is combined; only the combination applies the
vertical bound pos.y + 3 < 6. -/
def check_positions (board : Board) (player1 player2 : Player) : List Position → Option (Option Player)
  | [] => some none
  | pos :: rest =>
    match board[pos.translate]? with
    | none => none
    | some Slot.Empty => check_positions board player1 player2 rest
    | some (Slot.Occupied token) =>
      match
        line_check board (Slot.Occupied token)
          (decide (pos.x + 3 < HORIZONTAL_SLOT_COUNT))
          (pos.add_x 1) (pos.add_x 2) (pos.add_x 3),
        line_check board (Slot.Occupied token)
          true
          (pos.add_y 1) (pos.add_y 2) (pos.add_y 3),
        line_check board (Slot.Occupied token)
          (decide (pos.x + 3 < HORIZONTAL_SLOT_COUNT))
          ((pos.add_x 1).add_y 1) ((pos.add_x 2).add_y 2) ((pos.add_x 3).add_y 3),
        line_check board (Slot.Occupied token)
          (decide (3 ≤ pos.x))
          ((pos.sub_x 1).add_y 1) ((pos.sub_x 2).add_y 2) ((pos.sub_x 3).add_y 3) with
      | some on_right_line, some on_top_line, some on_up_right_line, some on_up_left_line =>
        if on_right_line
            || (decide (pos.y + 3 < VERTICAL_SLOT_COUNT)
                && (on_top_line || on_up_right_line || on_up_left_line)) then
          some (some (if player1.token == token then player1 else player2))
        else
          check_positions board player1 player2 rest
      | _, _, _, _ => none

def check_game_over (board : Board) (player1 player2 : Player) : Option (Option Player) :=
  check_positions board player1 player2 board_positions

/-- The scan loop of the duplicated method Game::game_over, kept as its
own copy to mirror the duplication in the source. -/
def game_over_scan (game : Game) : List Position → Option (Option Player)
  | [] => some none
  | pos :: rest =>
    match game.board[pos.translate]? with
    | none => none
    | some Slot.Empty => game_over_scan game rest
    | some (Slot.Occupied token) =>
      match
        line_check game.board (Slot.Occupied token)
          (decide (pos.x + 3 < HORIZONTAL_SLOT_COUNT))
          (pos.add_x 1) (pos.add_x 2) (pos.add_x 3),
        line_check game.board (Slot.Occupied token)
          true
          (pos.add_y 1) (pos.add_y 2) (pos.add_y 3),
        line_check game.board (Slot.Occupied token)
          (decide (pos.x + 3 < HORIZONTAL_SLOT_COUNT))
          ((pos.add_x 1).add_y 1) ((pos.add_x 2).add_y 2) ((pos.add_x 3).add_y 3),
        line_check game.board (Slot.Occupied token)
          (decide (3 ≤ pos.x))
          ((pos.sub_x 1).add_y 1) ((pos.sub_x 2).add_y 2) ((pos.sub_x 3).add_y 3) with
      | some on_right_line, some on_top_line, some on_up_right_line, some on_up_left_line =>
        if on_right_line
            || (decide (pos.y + 3 < VERTICAL_SLOT_COUNT)
                && (on_top_line || on_up_right_line || on_up_left_line)) then
          some (some (if game.player1.token == token then game.player1 else game.player2))
        else
          game_over_scan game rest
      | _, _, _, _ => none

def Game.game_over (game : Game) : Option (Option Player) :=
  game_over_scan game board_positions

/-- The loop of can_create_game over the games of the collection; the
game_over call happens before the name comparisons and may panic. -/
def can_create_scan (command : CreateGame) : List Game → Option Bool
  | [] => some true
  | game :: rest =>
    match Game.game_over game with
    | none => none
    | some winner =>
      if winner.isNone
          && (game.player1.name == command.player1.name
              || game.player1.name == command.player2.name
              || game.player2.name == command.player1.name
              || game.player2.name == command.player2.name) then
        some false
      else
        can_create_scan command rest

def can_create_game (games : Games) (command : CreateGame) : Option Bool :=
  can_create_scan command (games_values games)

/-- command_processing; now stands for the wall-clock timestamp taken
at emission time. -/
def command_processing (games : Games) (cmd : GameCommands) (now : Nat) : Option (Option GameEvents) :=
  match cmd with
  | GameCommands.createGame params =>
    match can_create_game games params with
    | none => none
    | some true =>
      some (some (GameEvents.gameCreated
        ⟨games_len games, params.player1, params.player2, now⟩))
    | some false => some none
  | GameCommands.placeToken params =>
    match games_get games params.game with
    | none => some none
    | some game =>
      match is_valid_move game.board params with
      | none => none
      | some true =>
        some (some (GameEvents.tokenPlaced
          ⟨params.game, params.player.token, params.column, now⟩))
      | some false => some none

def event_processing (games : Games) (event : GameEvents) : Option Games :=
  match event with
  | GameEvents.gameCreated params =>
    some (games_insert games params.id
      ⟨params.id, params.player1, params.player2, empty_board⟩)
  | GameEvents.tokenPlaced params =>
    match games_get games params.game with
    | none => some games
    | some game =>
      match project_board game.board params with
      | none => none
      | some b => some (games_update games params.game { game with board := b })

/-- Iterated board projection: fold a sequence of TokenPlaced events
into one board, propagating a panic. -/
def project_board_events (board : Board) : List TokenPlaced → Option Board
  | [] => some board
  | e :: rest =>
    match project_board board e with
    | none => none
    | some b => project_board_events b rest

/-
Basic coordinate lemmas.
-/

theorem translate_mk (x y : Nat) : (Position.mk x y).translate = x + 7 * y := by
  simp [Position.translate, HORIZONTAL_SLOT_COUNT]

theorem from_index_go_eq (x y : Nat) :
    Position.from_index_go x y = ⟨x % 7, y + x / 7⟩ := by
  induction x using Nat.strong_induction_on generalizing y with
  | _ x ih =>
    rw [Position.from_index_go]
    by_cases h : x < HORIZONTAL_SLOT_COUNT
    · simp only [if_pos h]
      simp only [HORIZONTAL_SLOT_COUNT] at h
      simp only [Position.mk.injEq]
      omega
    · simp only [if_neg h]
      simp only [HORIZONTAL_SLOT_COUNT] at h ⊢
      rw [ih (x - 7) (by omega)]
      simp only [Position.mk.injEq]
      omega

theorem from_index_eq (idx : Nat) :
    Position.from_index idx = ⟨idx % 7, idx / 7⟩ := by
  rw [Position.from_index, from_index_go_eq]
  simp

/-- C5: translation of a valid position (column below 7, row below 6)
round-trips through from_index, lands in [0, 42), is injective on the
valid positions, and every flat index below 42 is hit by exactly the
position from_index returns, so translation is a bijection between the
42 valid positions and [0, 42). -/
theorem translate_from_index_round_trip :
    (∀ x, x < HORIZONTAL_SLOT_COUNT → ∀ y, y < VERTICAL_SLOT_COUNT →
      Position.from_index (Position.mk x y).translate = Position.mk x y)
    ∧ (∀ x, x < HORIZONTAL_SLOT_COUNT → ∀ y, y < VERTICAL_SLOT_COUNT →
      (Position.mk x y).translate < SLOT_COUNT)
    ∧ (∀ x1, x1 < HORIZONTAL_SLOT_COUNT → ∀ y1, y1 < VERTICAL_SLOT_COUNT →
       ∀ x2, x2 < HORIZONTAL_SLOT_COUNT → ∀ y2, y2 < VERTICAL_SLOT_COUNT →
        (Position.mk x1 y1).translate = (Position.mk x2 y2).translate →
        x1 = x2 ∧ y1 = y2)
    ∧ (∀ i, i < SLOT_COUNT →
        (Position.from_index i).x < HORIZONTAL_SLOT_COUNT
        ∧ (Position.from_index i).y < VERTICAL_SLOT_COUNT
        ∧ (Position.from_index i).translate = i) := by
  refine ⟨?_, ?_, ?_, ?_⟩
  · intro x hx y hy
    rw [translate_mk, from_index_eq]
    simp only [HORIZONTAL_SLOT_COUNT, VERTICAL_SLOT_COUNT] at hx hy
    simp only [Position.mk.injEq]
    omega
  · intro x hx y hy
    rw [translate_mk]
    simp only [HORIZONTAL_SLOT_COUNT, VERTICAL_SLOT_COUNT] at hx hy
    simp only [SLOT_COUNT, HORIZONTAL_SLOT_COUNT, VERTICAL_SLOT_COUNT]
    omega
  · intro x1 hx1 y1 hy1 x2 hx2 y2 hy2 h
    rw [translate_mk, translate_mk] at h
    simp only [HORIZONTAL_SLOT_COUNT, VERTICAL_SLOT_COUNT] at hx1 hy1 hx2 hy2
    omega
  · intro i hi
    rw [from_index_eq, translate_mk]
    simp only [SLOT_COUNT, HORIZONTAL_SLOT_COUNT, VERTICAL_SLOT_COUNT] at hi ⊢
    omega

theorem translate_from_index_round_trip_witness :
    Position.from_index (Position.mk 3 2).translate = Position.mk 3 2 :=
  translate_from_index_round_trip.1 3 (by decide) 2 (by decide)

/-
board_positions: contents and enumeration order.
-/

/-- C8 counterexample: the claimed column-major enumeration would put
position (0, 1) second (after (0, 0)); the array in fact stores each
position at its flat index, so the second element is (1, 0): the
enumeration is row-major, not column-major. -/
theorem board_positions_not_column_major :
    board_positions[1]? = some (Position.mk 1 0)
    ∧ Position.mk 1 0 ≠ Position.mk 0 1 := by
  decide

/-- C8 amended: board_positions yields exactly 42 distinct positions,
each with column in [0, 7) and row in [0, 6), enumerated in ascending
flat-index (row-major) order: the element at index i is
(i mod 7, i div 7). -/
theorem board_positions_row_major :
    board_positions.length = SLOT_COUNT
    ∧ board_positions.Nodup
    ∧ (∀ p ∈ board_positions,
        p.x < HORIZONTAL_SLOT_COUNT ∧ p.y < VERTICAL_SLOT_COUNT)
    ∧ (∀ i : Fin SLOT_COUNT,
        board_positions[i.val]? = some (Position.mk (i.val % 7) (i.val / 7))) := by
  decide

/-
Out-of-bounds access in the win detector.
-/

/-- Six legal placements filling column 0 with alternating tokens: a
board reachable by ordinary play and containing no four-in-a-row. -/
def full_column_events : List TokenPlaced :=
  [⟨0, Token.Red, 0, 0⟩, ⟨0, Token.Yellow, 0, 1⟩, ⟨0, Token.Red, 0, 2⟩,
   ⟨0, Token.Yellow, 0, 3⟩, ⟨0, Token.Red, 0, 4⟩, ⟨0, Token.Yellow, 0, 5⟩]

def full_column_board : Board :=
  (project_board_events empty_board full_column_events).getD empty_board

/-- C1 refutation: on the reachable board whose column 0 holds
Red, Yellow, Red, Yellow, Red, Yellow the scan reaches the occupied
anchor (0, 5) without having found a line, evaluates the unguarded
vertical comparison board[(0, 6).translate()] and so reads flat index
42, outside [0, 42): check_game_over panics (modelled as none).  The
vertical bound pos.y + 3 < 6 exists in the source but is applied only
after the slot comparisons have been evaluated. -/
theorem check_game_over_reads_out_of_bounds :
    (project_board_events empty_board full_column_events).isSome = true
    ∧ (Position.mk 0 6).translate = 42
    ∧ check_game_over full_column_board
        (Player.mk "left" Token.Red) (Player.mk "right" Token.Yellow) = none := by
  decide

/-
Characterisation of the column scans: finding an empty slot and
dropping a token both follow the first empty row of the column.
-/

theorem place_token_scan_eq_find (board : Board) (t : Token) (c : Nat) :
    ∀ rs : List Nat, (∀ r ∈ rs, c + 7 * r < board.length) →
      place_token_scan board t (rs.map (fun y => Position.mk c y)) =
        match rs.find? (fun r => decide (board[c + 7 * r]? = some Slot.Empty)) with
        | some r => some (board.set (c + 7 * r) (Slot.Occupied t))
        | none => some board := by
  intro rs
  induction rs with
  | nil => intro _; rfl
  | cons r rest ih =>
    intro hin
    have hr : c + 7 * r < board.length := hin r (by simp)
    obtain ⟨s, hs⟩ : ∃ s, board[c + 7 * r]? = some s :=
      ⟨_, List.getElem?_eq_getElem hr⟩
    rw [List.map_cons, place_token_scan]
    simp only [translate_mk, hs]
    cases s with
    | Empty =>
      rw [List.find?_cons_of_pos _ (by simp [hs])]
    | Occupied tok =>
      rw [List.find?_cons_of_neg _ (by simp [hs])]
      exact ih (fun j hj => hin j (List.mem_cons_of_mem r hj))

theorem find_empty_slot_eq_any (board : Board) (c : Nat) :
    ∀ rs : List Nat, (∀ r ∈ rs, c + 7 * r < board.length) →
      find_empty_slot board (rs.map (fun y => Position.mk c y)) =
        some (rs.any (fun r => decide (board[c + 7 * r]? = some Slot.Empty))) := by
  intro rs
  induction rs with
  | nil => intro _; rfl
  | cons r rest ih =>
    intro hin
    have hr : c + 7 * r < board.length := hin r (by simp)
    obtain ⟨s, hs⟩ : ∃ s, board[c + 7 * r]? = some s :=
      ⟨_, List.getElem?_eq_getElem hr⟩
    rw [List.map_cons, find_empty_slot]
    simp only [translate_mk, hs, List.any_cons]
    cases s with
    | Empty => simp [hs]
    | Occupied tok =>
      rw [ih (fun j hj => hin j (List.mem_cons_of_mem r hj))]
      simp [hs]

theorem range_vertical_eq : List.range VERTICAL_SLOT_COUNT = [0, 1, 2, 3, 4, 5] := rfl

theorem find?_range6_of_eq_some (p : Nat → Bool) (r : Nat)
    (h : (List.range VERTICAL_SLOT_COUNT).find? p = some r) :
    p r = true ∧ r < VERTICAL_SLOT_COUNT ∧ ∀ j, j < r → p j = false := by
  rw [range_vertical_eq] at h
  simp only [VERTICAL_SLOT_COUNT]
  cases h0 : p 0 with
  | true =>
    rw [List.find?_cons_of_pos _ h0] at h
    obtain rfl : (0 : Nat) = r := Option.some.inj h
    exact ⟨h0, by omega, fun j hj => absurd hj (by omega)⟩
  | false =>
    rw [List.find?_cons_of_neg _ (by simp [h0])] at h
    cases h1 : p 1 with
    | true =>
      rw [List.find?_cons_of_pos _ h1] at h
      obtain rfl : (1 : Nat) = r := Option.some.inj h
      refine ⟨h1, by omega, ?_⟩
      intro j hj
      interval_cases j
      exact h0
    | false =>
      rw [List.find?_cons_of_neg _ (by simp [h1])] at h
      cases h2 : p 2 with
      | true =>
        rw [List.find?_cons_of_pos _ h2] at h
        obtain rfl : (2 : Nat) = r := Option.some.inj h
        refine ⟨h2, by omega, ?_⟩
        intro j hj
        interval_cases j
        · exact h0
        · exact h1
      | false =>
        rw [List.find?_cons_of_neg _ (by simp [h2])] at h
        cases h3 : p 3 with
        | true =>
          rw [List.find?_cons_of_pos _ h3] at h
          obtain rfl : (3 : Nat) = r := Option.some.inj h
          refine ⟨h3, by omega, ?_⟩
          intro j hj
          interval_cases j
          · exact h0
          · exact h1
          · exact h2
        | false =>
          rw [List.find?_cons_of_neg _ (by simp [h3])] at h
          cases h4 : p 4 with
          | true =>
            rw [List.find?_cons_of_pos _ h4] at h
            obtain rfl : (4 : Nat) = r := Option.some.inj h
            refine ⟨h4, by omega, ?_⟩
            intro j hj
            interval_cases j
            · exact h0
            · exact h1
            · exact h2
            · exact h3
          | false =>
            rw [List.find?_cons_of_neg _ (by simp [h4])] at h
            cases h5 : p 5 with
            | true =>
              rw [List.find?_cons_of_pos _ h5] at h
              obtain rfl : (5 : Nat) = r := Option.some.inj h
              refine ⟨h5, by omega, ?_⟩
              intro j hj
              interval_cases j
              · exact h0
              · exact h1
              · exact h2
              · exact h3
              · exact h4
            | false =>
              rw [List.find?_cons_of_neg _ (by simp [h5])] at h
              simp at h

theorem find?_range6_eq_some_of (p : Nat → Bool) (r : Nat)
    (hr : r < VERTICAL_SLOT_COUNT) (hp : p r = true)
    (hmin : ∀ j, j < r → p j = false) :
    (List.range VERTICAL_SLOT_COUNT).find? p = some r := by
  rw [range_vertical_eq]
  simp only [VERTICAL_SLOT_COUNT] at hr
  interval_cases r
  · rw [List.find?_cons_of_pos _ hp]
  · rw [List.find?_cons_of_neg _ (by simp [hmin 0 (by omega)]),
      List.find?_cons_of_pos _ hp]
  · rw [List.find?_cons_of_neg _ (by simp [hmin 0 (by omega)]),
      List.find?_cons_of_neg _ (by simp [hmin 1 (by omega)]),
      List.find?_cons_of_pos _ hp]
  · rw [List.find?_cons_of_neg _ (by simp [hmin 0 (by omega)]),
      List.find?_cons_of_neg _ (by simp [hmin 1 (by omega)]),
      List.find?_cons_of_neg _ (by simp [hmin 2 (by omega)]),
      List.find?_cons_of_pos _ hp]
  · rw [List.find?_cons_of_neg _ (by simp [hmin 0 (by omega)]),
      List.find?_cons_of_neg _ (by simp [hmin 1 (by omega)]),
      List.find?_cons_of_neg _ (by simp [hmin 2 (by omega)]),
      List.find?_cons_of_neg _ (by simp [hmin 3 (by omega)]),
      List.find?_cons_of_pos _ hp]
  · rw [List.find?_cons_of_neg _ (by simp [hmin 0 (by omega)]),
      List.find?_cons_of_neg _ (by simp [hmin 1 (by omega)]),
      List.find?_cons_of_neg _ (by simp [hmin 2 (by omega)]),
      List.find?_cons_of_neg _ (by simp [hmin 3 (by omega)]),
      List.find?_cons_of_neg _ (by simp [hmin 4 (by omega)]),
      List.find?_cons_of_pos _ hp]

theorem find?_range6_eq_none_of (p : Nat → Bool)
    (h : ∀ j, j < VERTICAL_SLOT_COUNT → p j = false) :
    (List.range VERTICAL_SLOT_COUNT).find? p = none := by
  rw [List.find?_eq_none]
  intro a ha
  rw [List.mem_range] at ha
  simp [h a ha]

theorem column_index_lt (c r len : Nat) (hc : c < HORIZONTAL_SLOT_COUNT)
    (hr : r < VERTICAL_SLOT_COUNT) (hlen : len = SLOT_COUNT) : c + 7 * r < len := by
  simp only [HORIZONTAL_SLOT_COUNT] at hc
  simp only [VERTICAL_SLOT_COUNT] at hr
  simp only [hlen, SLOT_COUNT, HORIZONTAL_SLOT_COUNT, VERTICAL_SLOT_COUNT]
  omega

theorem project_board_eq (board : Board) (ev : TokenPlaced)
    (hlen : board.length = SLOT_COUNT) (hc : ev.column < HORIZONTAL_SLOT_COUNT) :
    project_board board ev =
      match (List.range VERTICAL_SLOT_COUNT).find?
          (fun r => decide (board[ev.column + 7 * r]? = some Slot.Empty)) with
      | some r => some (board.set (ev.column + 7 * r) (Slot.Occupied ev.token))
      | none => some board := by
  have hin : ∀ r ∈ List.range VERTICAL_SLOT_COUNT, ev.column + 7 * r < board.length := by
    intro r hrr
    rw [List.mem_range] at hrr
    exact column_index_lt _ _ _ hc hrr hlen
  rw [project_board, column_positions]
  exact place_token_scan_eq_find board ev.token ev.column _ hin

theorem is_valid_move_eq (board : Board) (cmd : PlaceToken)
    (hlen : board.length = SLOT_COUNT) (hc : cmd.column < HORIZONTAL_SLOT_COUNT) :
    is_valid_move board cmd =
      some ((List.range VERTICAL_SLOT_COUNT).any
        (fun r => decide (board[cmd.column + 7 * r]? = some Slot.Empty))) := by
  have hin : ∀ r ∈ List.range VERTICAL_SLOT_COUNT, cmd.column + 7 * r < board.length := by
    intro r hrr
    rw [List.mem_range] at hrr
    exact column_index_lt _ _ _ hc hrr hlen
  rw [is_valid_move, column_positions]
  exact find_empty_slot_eq_any board cmd.column _ hin

/-- C2: for a column in range, project_board occupies exactly the
lowest-row empty slot of that column with the event token and changes
no other slot; when every one of the six slots of the column is
occupied the board is returned unchanged. -/
theorem project_board_places_lowest_empty (board : Board) (ev : TokenPlaced)
    (hlen : board.length = SLOT_COUNT) (hc : ev.column < HORIZONTAL_SLOT_COUNT) :
    ((∀ r, r < VERTICAL_SLOT_COUNT → board[ev.column + 7 * r]? ≠ some Slot.Empty) →
        project_board board ev = some board)
    ∧ (∀ r, r < VERTICAL_SLOT_COUNT →
        board[ev.column + 7 * r]? = some Slot.Empty →
        (∀ j, j < r → board[ev.column + 7 * j]? ≠ some Slot.Empty) →
        ∃ nb, project_board board ev = some nb
          ∧ nb[ev.column + 7 * r]? = some (Slot.Occupied ev.token)
          ∧ ∀ i, i ≠ ev.column + 7 * r → nb[i]? = board[i]?) := by
  constructor
  · intro hfull
    rw [project_board_eq board ev hlen hc]
    rw [find?_range6_eq_none_of]
    intro j hj
    simp [hfull j hj]
  · intro r hr hemp hmin
    rw [project_board_eq board ev hlen hc]
    rw [find?_range6_eq_some_of _ r hr (by simp [hemp])
      (fun j hj => by simp [hmin j hj])]
    refine ⟨_, rfl, ?_, ?_⟩
    · exact List.getElem?_set_self (column_index_lt _ _ _ hc hr hlen)
    · intro i hi
      exact List.getElem?_set_ne (Ne.symm hi)

theorem project_board_places_lowest_empty_witness :
    ∃ nb, project_board empty_board ⟨0, Token.Red, 3, 0⟩ = some nb
      ∧ nb[3 + 7 * 0]? = some (Slot.Occupied Token.Red)
      ∧ ∀ i, i ≠ 3 + 7 * 0 → nb[i]? = empty_board[i]? :=
  (project_board_places_lowest_empty empty_board ⟨0, Token.Red, 3, 0⟩
    (by decide) (by decide)).2 0 (by decide) (by decide)
    (fun j hj => absurd hj (by omega))

/-- C6: for a column in range, is_valid_move answers true exactly when
the column still has an empty slot and false exactly when all six of
its slots are occupied. -/
theorem is_valid_move_iff_empty_slot (board : Board) (cmd : PlaceToken)
    (hlen : board.length = SLOT_COUNT) (hc : cmd.column < HORIZONTAL_SLOT_COUNT) :
    (is_valid_move board cmd = some true ↔
      ∃ r, r < VERTICAL_SLOT_COUNT ∧ board[cmd.column + 7 * r]? = some Slot.Empty)
    ∧ (is_valid_move board cmd = some false ↔
      ∀ r, r < VERTICAL_SLOT_COUNT → board[cmd.column + 7 * r]? ≠ some Slot.Empty) := by
  rw [is_valid_move_eq board cmd hlen hc]
  constructor
  · simp only [Option.some.injEq, List.any_eq_true, List.mem_range, decide_eq_true_eq]
  · simp only [Option.some.injEq, List.any_eq_false, List.mem_range, decide_eq_true_eq]

theorem is_valid_move_iff_empty_slot_witness :
    is_valid_move empty_board ⟨0, Player.mk "a" Token.Red, 2⟩ = some true :=
  (is_valid_move_iff_empty_slot empty_board ⟨0, Player.mk "a" Token.Red, 2⟩
    (by decide) (by decide)).1.mpr ⟨0, by decide, by decide⟩

/-
Gravity.
-/

theorem horizontal_eq : HORIZONTAL_SLOT_COUNT = 7 := rfl

theorem vertical_eq : VERTICAL_SLOT_COUNT = 6 := rfl

theorem slot_count_eq : SLOT_COUNT = 42 := rfl

/-- Slot (c, r) holds a token. -/
abbrev occupied_at (board : Board) (c r : Nat) : Prop :=
  ∃ t, board[c + 7 * r]? = some (Slot.Occupied t)

/-- Gravity: in every column, every slot below an occupied slot is
occupied, i.e. the occupied slots form a contiguous prefix of the rows. -/
abbrev gravity_inv (board : Board) : Prop :=
  ∀ c r j, c < HORIZONTAL_SLOT_COUNT → r < VERTICAL_SLOT_COUNT → j < r →
    occupied_at board c r → occupied_at board c j

theorem empty_board_length : empty_board.length = SLOT_COUNT := by
  simp [empty_board]

theorem gravity_inv_empty : gravity_inv empty_board := by
  intro c r j _ _ _ hocc
  obtain ⟨t, ht⟩ := hocc
  rw [empty_board, List.getElem?_replicate] at ht
  by_cases h : c + 7 * r < SLOT_COUNT
  · rw [if_pos h] at ht
    simp at ht
  · rw [if_neg h] at ht
    simp at ht

theorem project_board_step (board : Board) (ev : TokenPlaced)
    (hlen : board.length = SLOT_COUNT) (hc : ev.column < HORIZONTAL_SLOT_COUNT) :
    ∃ nb, project_board board ev = some nb ∧ nb.length = SLOT_COUNT
      ∧ (gravity_inv board → gravity_inv nb) := by
  rw [project_board_eq board ev hlen hc]
  cases hfind : (List.range VERTICAL_SLOT_COUNT).find?
      (fun r => decide (board[ev.column + 7 * r]? = some Slot.Empty)) with
  | none => exact ⟨board, rfl, hlen, fun h => h⟩
  | some r =>
    obtain ⟨hp, hr, hmin⟩ := find?_range6_of_eq_some _ r hfind
    have hemp : board[ev.column + 7 * r]? = some Slot.Empty := of_decide_eq_true hp
    refine ⟨_, rfl, by simp [hlen], ?_⟩
    intro hg c2 r2 j2 hc2 hr2 hj2 hocc
    by_cases hque : c2 + 7 * j2 = ev.column + 7 * r
    · exact ⟨ev.token, by
        rw [hque]
        exact List.getElem?_set_self (column_index_lt _ _ _ hc hr hlen)⟩
    · have hoccb : occupied_at board c2 j2 := by
        by_cases hsrc : c2 + 7 * r2 = ev.column + 7 * r
        · have hceq : c2 = ev.column ∧ r2 = r := by
            rw [horizontal_eq] at hc hc2
            rw [vertical_eq] at hr hr2
            omega
          obtain ⟨hce, hre⟩ := hceq
          have hne : board[c2 + 7 * j2]? ≠ some Slot.Empty := by
            have hm := hmin j2 (by omega)
            rw [hce]
            simpa using hm
          obtain ⟨s, hs⟩ : ∃ s, board[c2 + 7 * j2]? = some s :=
            ⟨_, List.getElem?_eq_getElem
              (column_index_lt _ _ _ hc2 (by rw [vertical_eq] at hr2 ⊢; omega) hlen)⟩
          cases s with
          | Empty => exact absurd hs hne
          | Occupied t => exact ⟨t, hs⟩
        · obtain ⟨t, ht⟩ := hocc
          rw [List.getElem?_set_ne (fun h => hsrc h.symm)] at ht
          exact hg c2 r2 j2 hc2 hr2 hj2 ⟨t, ht⟩
      obtain ⟨t, ht⟩ := hoccb
      refine ⟨t, ?_⟩
      rw [List.getElem?_set_ne (fun h => hque h.symm)]
      exact ht

theorem project_board_events_gravity : ∀ (events : List TokenPlaced) (board : Board),
    board.length = SLOT_COUNT → gravity_inv board →
    (∀ e ∈ events, e.column < HORIZONTAL_SLOT_COUNT) →
    ∃ b, project_board_events board events = some b
      ∧ b.length = SLOT_COUNT ∧ gravity_inv b := by
  intro events
  induction events with
  | nil => intro board hlen hg _; exact ⟨board, rfl, hlen, hg⟩
  | cons e rest ih =>
    intro board hlen hg hcols
    obtain ⟨b1, hb1, hlen1, hg1⟩ := project_board_step board e hlen (hcols e (by simp))
    obtain ⟨b2, hb2, hlen2, hg2⟩ :=
      ih b1 hlen1 (hg1 hg) (fun e2 he2 => hcols e2 (List.mem_cons_of_mem e he2))
    refine ⟨b2, ?_, hlen2, hg2⟩
    rw [project_board_events, hb1]
    exact hb2

theorem column_fill_aux (c : Nat) (t : Token) (g created : Nat)
    (hc : c < HORIZONTAL_SLOT_COUNT) :
    ∀ (n k : Nat) (board : Board), n + k ≤ VERTICAL_SLOT_COUNT →
      board.length = SLOT_COUNT →
      (∀ r, r < VERTICAL_SLOT_COUNT →
        board[c + 7 * r]? = if r < k then some (Slot.Occupied t) else some Slot.Empty) →
      ∃ b, project_board_events board (List.replicate n ⟨g, t, c, created⟩) = some b
        ∧ b.length = SLOT_COUNT
        ∧ (∀ r, r < VERTICAL_SLOT_COUNT →
            b[c + 7 * r]? = if r < k + n then some (Slot.Occupied t) else some Slot.Empty) := by
  intro n
  induction n with
  | zero =>
    intro k board _ hlen hcol
    exact ⟨board, rfl, hlen, by simpa using hcol⟩
  | succ m ih =>
    intro k board hnk hlen hcol
    have hk6 : k < VERTICAL_SLOT_COUNT := by rw [vertical_eq] at hnk ⊢; omega
    have hfind := project_board_eq board ⟨g, t, c, created⟩ hlen hc
    rw [find?_range6_eq_some_of _ k hk6
      (by simp [hcol k hk6])
      (fun j hj => by
        have hj6 : j < VERTICAL_SLOT_COUNT := by rw [vertical_eq] at hk6 ⊢; omega
        simp [hcol j hj6, hj])] at hfind
    have hcol1 : ∀ r, r < VERTICAL_SLOT_COUNT →
        (board.set (c + 7 * k) (Slot.Occupied t))[c + 7 * r]? =
          if r < k + 1 then some (Slot.Occupied t) else some Slot.Empty := by
      intro r hr
      by_cases hreq : r = k
      · subst hreq
        rw [if_pos (by omega)]
        exact List.getElem?_set_self (column_index_lt _ _ _ hc hr hlen)
      · by_cases hlt : r < k
        · rw [if_pos (by omega), List.getElem?_set_ne (by omega), hcol r hr, if_pos hlt]
        · rw [if_neg (by omega), List.getElem?_set_ne (by omega), hcol r hr, if_neg hlt]
    obtain ⟨b, hb, hlen2, hcol2⟩ := ih (k + 1) (board.set (c + 7 * k) (Slot.Occupied t))
      (by rw [vertical_eq] at hnk ⊢; omega) (by simp [hlen]) hcol1
    refine ⟨b, ?_, hlen2, ?_⟩
    · rw [List.replicate_succ, project_board_events, hfind]
      exact hb
    · intro r hr
      rw [hcol2 r hr]
      by_cases hlt : r < k + 1 + m
      · rw [if_pos hlt, if_pos (by omega)]
      · rw [if_neg hlt, if_neg (by omega)]

/-- C4: starting from the empty board, any sequence of TokenPlaced
projections into columns of the board preserves gravity (the occupied
slots of each column are a contiguous prefix of its rows), and after
placing n tokens into one column of the empty board the occupied slots
of that column are exactly rows 0..n-1. -/
theorem gravity_preserved :
    (∀ events : List TokenPlaced,
      (∀ e ∈ events, e.column < HORIZONTAL_SLOT_COUNT) →
      ∃ b, project_board_events empty_board events = some b ∧ gravity_inv b)
    ∧ (∀ (c g created : Nat) (t : Token) (n : Nat),
        c < HORIZONTAL_SLOT_COUNT → n ≤ VERTICAL_SLOT_COUNT →
        ∃ b, project_board_events empty_board (List.replicate n ⟨g, t, c, created⟩) = some b
          ∧ ∀ r, r < VERTICAL_SLOT_COUNT → (occupied_at b c r ↔ r < n)) := by
  constructor
  · intro events hcols
    obtain ⟨b, hb, _, hg⟩ := project_board_events_gravity events empty_board
      empty_board_length gravity_inv_empty hcols
    exact ⟨b, hb, hg⟩
  · intro c g created t n hc hn
    have hcol0 : ∀ r, r < VERTICAL_SLOT_COUNT →
        empty_board[c + 7 * r]? = if r < 0 then some (Slot.Occupied t) else some Slot.Empty := by
      intro r hr
      rw [if_neg (by omega), empty_board, List.getElem?_replicate,
        if_pos (column_index_lt _ _ _ hc hr rfl)]
    obtain ⟨b, hb, _, hcol⟩ := column_fill_aux c t g created hc n 0 empty_board
      (by omega) empty_board_length hcol0
    refine ⟨b, hb, ?_⟩
    intro r hr
    have hcolr := hcol r hr
    rw [Nat.zero_add] at hcolr
    by_cases hrn : r < n
    · rw [if_pos hrn] at hcolr
      exact ⟨fun _ => hrn, fun _ => ⟨t, hcolr⟩⟩
    · rw [if_neg hrn] at hcolr
      constructor
      · rintro ⟨t2, ht2⟩
        rw [hcolr] at ht2
        simp at ht2
      · intro h
        exact absurd h hrn

theorem gravity_preserved_witness :
    ∃ b, project_board_events empty_board (List.replicate 4 ⟨0, Token.Red, 0, 0⟩) = some b
      ∧ ∀ r, r < VERTICAL_SLOT_COUNT → (occupied_at b 0 r ↔ r < 4) :=
  gravity_preserved.2 0 0 0 Token.Red 4 (by decide) (by decide)

/-
The games collection: updating an existing key.
-/

theorem games_get_update (games : Games) (id : Nat) (g2 : Game) :
    (∃ g, games_get games id = some g) →
    games_get (games_update games id g2) id = some g2 := by
  induction games with
  | nil => rintro ⟨g, hg⟩; simp [games_get] at hg
  | cons kv rest ih =>
    rintro ⟨g, hg⟩
    by_cases hk : kv.fst = id
    · rw [games_update, if_pos (by simp [hk])]
      simp [games_get]
    · rw [games_update, if_neg (by simp [hk])]
      rw [games_get, List.find?_cons_of_neg _ (by simp [hk])]
      rw [games_get, List.find?_cons_of_neg _ (by simp [hk])] at hg
      exact ih ⟨g, hg⟩

/-- C9: event application is not idempotent.  If the games collection
contains the target game and the target column (in range) still has two
empty slots, applying the same TokenPlaced event twice through
event_processing produces, after the second application, a board that
differs from the board after the first: the second application occupies
one more slot of the same column. -/
theorem event_processing_not_idempotent (games : Games) (ev : TokenPlaced) (g : Game)
    (hget : games_get games ev.game = some g)
    (hlen : g.board.length = SLOT_COUNT)
    (hc : ev.column < HORIZONTAL_SLOT_COUNT)
    (r1 r2 : Nat) (h12 : r1 < r2) (hr2 : r2 < VERTICAL_SLOT_COUNT)
    (he1 : g.board[ev.column + 7 * r1]? = some Slot.Empty)
    (he2 : g.board[ev.column + 7 * r2]? = some Slot.Empty) :
    ∃ games1 games2 g1 g2,
      event_processing games (GameEvents.tokenPlaced ev) = some games1
      ∧ games_get games1 ev.game = some g1
      ∧ event_processing games1 (GameEvents.tokenPlaced ev) = some games2
      ∧ games_get games2 ev.game = some g2
      ∧ g1.board ≠ g2.board := by
  have hr1 : r1 < VERTICAL_SLOT_COUNT := by rw [vertical_eq] at hr2 ⊢; omega
  -- first application
  have hproj1 := project_board_eq g.board ev hlen hc
  cases hfind1 : (List.range VERTICAL_SLOT_COUNT).find?
      (fun r => decide (g.board[ev.column + 7 * r]? = some Slot.Empty)) with
  | none =>
    exact absurd (List.find?_eq_none.mp hfind1 r1 (List.mem_range.mpr hr1))
      (by simp [he1])
  | some r0 =>
    rw [hfind1] at hproj1
    obtain ⟨hp0, hr0, hmin0⟩ := find?_range6_of_eq_some _ r0 hfind1
    have hr0le : r0 ≤ r1 := by
      by_contra hlt
      have := hmin0 r1 (by omega)
      simp [he1] at this
    have hb1len : (g.board.set (ev.column + 7 * r0) (Slot.Occupied ev.token)).length
        = SLOT_COUNT := by simp [hlen]
    have hb1r2 : (g.board.set (ev.column + 7 * r0) (Slot.Occupied ev.token))[ev.column + 7 * r2]?
        = some Slot.Empty := by
      rw [List.getElem?_set_ne (by omega)]
      exact he2
    -- second application
    have hproj2 := project_board_eq
      (g.board.set (ev.column + 7 * r0) (Slot.Occupied ev.token)) ev hb1len hc
    cases hfind2 : (List.range VERTICAL_SLOT_COUNT).find?
        (fun r => decide ((g.board.set (ev.column + 7 * r0) (Slot.Occupied ev.token))[ev.column + 7 * r]?
          = some Slot.Empty)) with
    | none =>
      exact absurd (List.find?_eq_none.mp hfind2 r2 (List.mem_range.mpr hr2))
        (by simp [hb1r2])
    | some r0b =>
      rw [hfind2] at hproj2
      obtain ⟨hp0b, hr0b, _⟩ := find?_range6_of_eq_some _ r0b hfind2
      have hempb : (g.board.set (ev.column + 7 * r0) (Slot.Occupied ev.token))[ev.column + 7 * r0b]?
          = some Slot.Empty := of_decide_eq_true hp0b
      have h1 : event_processing games (GameEvents.tokenPlaced ev)
          = some (games_update games ev.game
            (Game.mk g.id g.player1 g.player2
              (g.board.set (ev.column + 7 * r0) (Slot.Occupied ev.token)))) := by
        simp only [event_processing, hget, hproj1]
      have h2 : games_get (games_update games ev.game
            (Game.mk g.id g.player1 g.player2
              (g.board.set (ev.column + 7 * r0) (Slot.Occupied ev.token)))) ev.game
          = some (Game.mk g.id g.player1 g.player2
              (g.board.set (ev.column + 7 * r0) (Slot.Occupied ev.token))) :=
        games_get_update games ev.game _ ⟨g, hget⟩
      have h3 : event_processing (games_update games ev.game
            (Game.mk g.id g.player1 g.player2
              (g.board.set (ev.column + 7 * r0) (Slot.Occupied ev.token))))
          (GameEvents.tokenPlaced ev)
          = some (games_update (games_update games ev.game
              (Game.mk g.id g.player1 g.player2
                (g.board.set (ev.column + 7 * r0) (Slot.Occupied ev.token))))
            ev.game
            (Game.mk g.id g.player1 g.player2
              ((g.board.set (ev.column + 7 * r0) (Slot.Occupied ev.token)).set
                (ev.column + 7 * r0b) (Slot.Occupied ev.token)))) := by
        simp only [event_processing, h2, hproj2]
      have h4 : games_get (games_update (games_update games ev.game
              (Game.mk g.id g.player1 g.player2
                (g.board.set (ev.column + 7 * r0) (Slot.Occupied ev.token))))
            ev.game
            (Game.mk g.id g.player1 g.player2
              ((g.board.set (ev.column + 7 * r0) (Slot.Occupied ev.token)).set
                (ev.column + 7 * r0b) (Slot.Occupied ev.token)))) ev.game
          = some (Game.mk g.id g.player1 g.player2
              ((g.board.set (ev.column + 7 * r0) (Slot.Occupied ev.token)).set
                (ev.column + 7 * r0b) (Slot.Occupied ev.token))) :=
        games_get_update _ ev.game _ ⟨_, h2⟩
      refine ⟨_, _, _, _, h1, h2, h3, h4, ?_⟩
      intro hbad
      have hidx : ev.column + 7 * r0b <
          (g.board.set (ev.column + 7 * r0) (Slot.Occupied ev.token)).length :=
        column_index_lt _ _ _ hc hr0b hb1len
      have hset : ((g.board.set (ev.column + 7 * r0) (Slot.Occupied ev.token)).set
          (ev.column + 7 * r0b) (Slot.Occupied ev.token))[ev.column + 7 * r0b]?
          = some (Slot.Occupied ev.token) :=
        List.getElem?_set_self hidx
      have hbad2 : g.board.set (ev.column + 7 * r0) (Slot.Occupied ev.token)
          = (g.board.set (ev.column + 7 * r0) (Slot.Occupied ev.token)).set
              (ev.column + 7 * r0b) (Slot.Occupied ev.token) := hbad
      rw [← hbad2, hempb] at hset
      simp at hset

theorem event_processing_not_idempotent_witness :
    ∃ games1 games2 g1 g2,
      event_processing
          [(0, Game.mk 0 (Player.mk "a" Token.Red) (Player.mk "b" Token.Yellow) empty_board)]
          (GameEvents.tokenPlaced ⟨0, Token.Red, 2, 0⟩) = some games1
      ∧ games_get games1 0 = some g1
      ∧ event_processing games1 (GameEvents.tokenPlaced ⟨0, Token.Red, 2, 0⟩) = some games2
      ∧ games_get games2 0 = some g2
      ∧ g1.board ≠ g2.board :=
  event_processing_not_idempotent
    [(0, Game.mk 0 (Player.mk "a" Token.Red) (Player.mk "b" Token.Yellow) empty_board)]
    ⟨0, Token.Red, 2, 0⟩
    (Game.mk 0 (Player.mk "a" Token.Red) (Player.mk "b" Token.Yellow) empty_board)
    (by decide) (by decide) (by decide) 0 1 (by decide) (by decide) (by decide) (by decide)

/-
Command processing.
-/

/-- C3: command_processing emits an event exactly when the validator of
the command accepts.  A CreateGame command yields GameCreated with id
equal to the current game count and the two given players exactly when
can_create_game answers true, and no event exactly when it answers
false; a PlaceToken command yields TokenPlaced carrying the command
game id, column and the token of the command player exactly when the
target game exists and is_valid_move answers true on its board, and no
event exactly when the game is missing or is_valid_move answers false
(a panicking validator propagates and nothing is returned at all). -/
theorem command_processing_iff (games : Games) (now : Nat) :
    (∀ params : CreateGame, ∀ e : GameEvents,
      (command_processing games (GameCommands.createGame params) now = some (some e)
        ↔ (can_create_game games params = some true
           ∧ e = GameEvents.gameCreated
              ⟨games_len games, params.player1, params.player2, now⟩))
      ∧ (command_processing games (GameCommands.createGame params) now = some none
        ↔ can_create_game games params = some false))
    ∧ (∀ params : PlaceToken, ∀ e : GameEvents,
      (command_processing games (GameCommands.placeToken params) now = some (some e)
        ↔ (∃ game, games_get games params.game = some game
            ∧ is_valid_move game.board params = some true
            ∧ e = GameEvents.tokenPlaced
                ⟨params.game, params.player.token, params.column, now⟩))
      ∧ (command_processing games (GameCommands.placeToken params) now = some none
        ↔ (games_get games params.game = none
           ∨ ∃ game, games_get games params.game = some game
              ∧ is_valid_move game.board params = some false))) := by
  constructor
  · intro params e
    cases hcc : can_create_game games params with
    | none => simp [command_processing, hcc]
    | some b => cases b <;> simp [command_processing, hcc, eq_comm]
  · intro params e
    cases hg : games_get games params.game with
    | none => simp [command_processing, hg]
    | some game =>
      cases hv : is_valid_move game.board params with
      | none => simp [command_processing, hg, hv]
      | some b => cases b <;> simp [command_processing, hg, hv, eq_comm]

theorem command_processing_iff_witness :
    command_processing []
        (GameCommands.createGame ⟨Player.mk "a" Token.Red, Player.mk "b" Token.Yellow⟩) 5
      = some (some (GameEvents.gameCreated
          ⟨0, Player.mk "a" Token.Red, Player.mk "b" Token.Yellow, 5⟩)) :=
  ((command_processing_iff [] 5).1
    ⟨Player.mk "a" Token.Red, Player.mk "b" Token.Yellow⟩
    (GameEvents.gameCreated
      ⟨0, Player.mk "a" Token.Red, Player.mk "b" Token.Yellow, 5⟩)).1.mpr
    ⟨by decide, rfl⟩

/-
Duplicate-player check.
-/

/-- Two proposed players collide with the seating of game g2. -/
abbrev name_collision (g2 : Game) (cmd : CreateGame) : Prop :=
  g2.player1.name = cmd.player1.name ∨ g2.player1.name = cmd.player2.name
  ∨ g2.player2.name = cmd.player1.name ∨ g2.player2.name = cmd.player2.name

theorem collision_bool (g2 : Game) (cmd : CreateGame) :
    (g2.player1.name == cmd.player1.name || g2.player1.name == cmd.player2.name
      || g2.player2.name == cmd.player1.name || g2.player2.name == cmd.player2.name) = true
    ↔ name_collision g2 cmd := by
  simp only [Bool.or_eq_true, beq_iff_eq, name_collision]
  tauto

theorem can_create_scan_iff (cmd : CreateGame) :
    ∀ l : List Game, (∀ g2 ∈ l, (Game.game_over g2).isSome) →
      ((can_create_scan cmd l = some true ↔
        ∀ g2 ∈ l, Game.game_over g2 = some none → ¬name_collision g2 cmd)
      ∧ (can_create_scan cmd l = some false ↔
        ∃ g2 ∈ l, Game.game_over g2 = some none ∧ name_collision g2 cmd)) := by
  intro l
  induction l with
  | nil =>
    intro _
    constructor
    · simp [can_create_scan]
    · simp [can_create_scan]
  | cons gg rest ih =>
    intro hall
    obtain ⟨w, hw⟩ : ∃ w, Game.game_over gg = some w := by
      have hsome := hall gg (by simp)
      cases hgg : Game.game_over gg with
      | none => rw [hgg] at hsome; simp at hsome
      | some w => exact ⟨w, rfl⟩
    have ihh := ih (fun g2 hg2 => hall g2 (List.mem_cons_of_mem _ hg2))
    simp only [can_create_scan, hw]
    cases w with
    | none =>
      by_cases hname : name_collision gg cmd
      · rw [if_pos (by simp [collision_bool gg cmd, hname])]
        constructor
        · constructor
          · intro h; exact absurd h (by simp)
          · intro h; exact absurd hname (h gg (by simp) hw)
        · constructor
          · intro _; exact ⟨gg, by simp, hw, hname⟩
          · intro _; rfl
      · rw [if_neg (by simp [collision_bool gg cmd, hname])]
        constructor
        · rw [ihh.1, List.forall_mem_cons]
          constructor
          · intro h; exact ⟨fun _ => hname, h⟩
          · intro h; exact h.2
        · rw [ihh.2, List.exists_mem_cons_iff]
          constructor
          · intro h; exact Or.inr h
          · rintro (⟨_, hcol⟩ | h)
            · exact absurd hcol hname
            · exact h
    | some p =>
      rw [if_neg (by simp)]
      constructor
      · rw [ihh.1, List.forall_mem_cons]
        constructor
        · intro h
          refine ⟨fun hbad => ?_, h⟩
          rw [hw] at hbad
          simp at hbad
        · intro h; exact h.2
      · rw [ihh.2, List.exists_mem_cons_iff]
        constructor
        · intro h; exact Or.inr h
        · rintro (⟨hbad, _⟩ | h)
          · rw [hw] at hbad; simp at hbad
          · exact h

/-- C7: when every game_over call returns (no panic), can_create_game
answers true exactly when neither proposed player name equals a name
seated in a game whose win detector reports no winner; names seated
only in games that already have a winner do not block creation. -/
theorem can_create_game_iff (games : Games) (cmd : CreateGame)
    (hall : ∀ g2 ∈ games_values games, (Game.game_over g2).isSome) :
    (can_create_game games cmd = some true ↔
      ∀ g2 ∈ games_values games, Game.game_over g2 = some none → ¬name_collision g2 cmd)
    ∧ (can_create_game games cmd = some false ↔
      ∃ g2 ∈ games_values games, Game.game_over g2 = some none ∧ name_collision g2 cmd) := by
  rw [can_create_game]
  exact can_create_scan_iff cmd (games_values games) hall

/-- A board holding a finished game: four Red tokens stacked in
column 0, a vertical four-in-a-row. -/
def won_board : Board :=
  (project_board_events empty_board
    [⟨0, Token.Red, 0, 0⟩, ⟨0, Token.Red, 0, 1⟩,
     ⟨0, Token.Red, 0, 2⟩, ⟨0, Token.Red, 0, 3⟩]).getD empty_board

theorem can_create_game_iff_witness :
    can_create_game
      [(0, Game.mk 0 (Player.mk "a" Token.Red) (Player.mk "b" Token.Yellow) won_board)]
      ⟨Player.mk "a" Token.Red, Player.mk "c" Token.Yellow⟩ = some true :=
  (can_create_game_iff
    [(0, Game.mk 0 (Player.mk "a" Token.Red) (Player.mk "b" Token.Yellow) won_board)]
    ⟨Player.mk "a" Token.Red, Player.mk "c" Token.Yellow⟩ (by decide)).1.mpr (by decide)

/-
Equivalence of the two win-detector copies.
-/

theorem game_over_scan_eq (g : Game) :
    ∀ ps : List Position,
      game_over_scan g ps = check_positions g.board g.player1 g.player2 ps := by
  intro ps
  induction ps with
  | nil => rfl
  | cons pos rest ih =>
    simp only [game_over_scan, check_positions]
    cases hg : g.board[pos.translate]? with
    | none => rfl
    | some s =>
      cases s with
      | Empty => exact ih
      | Occupied token => rw [ih]

/-- C10: the duplicated win detectors agree on every game: the method
game_over returns exactly what the free function check_game_over
returns on the same board and players (including agreement on the
panicking inputs). -/
theorem game_over_eq_check_game_over (g : Game) :
    Game.game_over g = check_game_over g.board g.player1 g.player2 :=
  game_over_scan_eq g board_positions

end ConnectFour
